import Mathlib

/-!
Verification development for the kitium-ai encryption pipeline.

The definitions below are a shallow embedding of the TypeScript source:

* `LRUCache` models `src/utils/lru-cache.ts` (a JavaScript `Map` is modelled
  as an insertion-ordered association list, matching `Map` iteration order);
* `zeroize` models `src/utils/crypto.ts`;
* `LocalCrypto` models `LocalCryptoOperations` in `src/providers/local/crypto-ops.ts`;
* `EnvelopeInstance` models `EnvelopeEncrypter` in `src/envelope.ts`;
* `CB` models `CircuitBreakerHealthMonitoring` in `src/decorators/circuit-breaker.ts`;
* `runRetry` models `withRetry` in `src/decorators/retry.ts`;
* the layer functions model the decorators wired by `createProvider` in
  `src/providers/factory.ts` (policy innermost, then audit, then metrics).

Wall-clock reads (`Date.now()`) are modelled by an explicit `now : Nat`
parameter, one instant per operation.  Randomness (`randomBytes`) is modelled
by an explicit tape.  The platform AEAD cipher (`node:crypto`) is an external
collaborator assumed correct, so it is modelled as an abstract `Aead`
structure; theorems that need its correctness take it as a hypothesis.
-/

/-- Byte strings are lists of naturals. -/
abbrev Bytes := List Nat

/-- Decidable equality for `Except`, used to evaluate outcomes in witnesses. -/
instance {ε α : Type} [DecidableEq ε] [DecidableEq α] : DecidableEq (Except ε α) :=
  fun x y =>
    match x, y with
    | .error a, .error b =>
        if h : a = b then .isTrue (h ▸ rfl) else .isFalse (fun hc => h (Except.error.inj hc))
    | .error _, .ok _ => .isFalse (fun hc => Except.noConfusion hc)
    | .ok _, .error _ => .isFalse (fun hc => Except.noConfusion hc)
    | .ok a, .ok b =>
        if h : a = b then .isTrue (h ▸ rfl) else .isFalse (fun hc => h (Except.ok.inj hc))

/-- Model of `CacheEntry` from `src/utils/lru-cache.ts`. -/
structure CacheEntry (V : Type) where
  value : V
  expiresAt : Nat
  accessCount : Nat
  lastAccessed : Nat
  deriving Repr, DecidableEq

/-- Model of `LRUCache` from `src/utils/lru-cache.ts`.  The private
`Map<K, CacheEntry<V>>` is an insertion-ordered association list. -/
structure LRUCache (K V : Type) where
  maxSize : Nat
  ttlMs : Nat
  cache : List (K × CacheEntry V)
  deriving Repr, DecidableEq

namespace LRUCache

variable {K V : Type} [DecidableEq K]

/-- A fresh cache as built by the constructor. -/
def emptyCache (maxSize ttlMs : Nat) : LRUCache K V :=
  ⟨maxSize, ttlMs, []⟩

/-- Lookup of `this.cache.get(key)`. -/
def findEntry? (l : List (K × CacheEntry V)) (k : K) : Option (CacheEntry V) :=
  (l.find? (fun p => decide (p.1 = k))).map (·.2)

/-- Removal of `this.cache.delete(key)`: erases the first (hence, with the
distinct keys a `Map` guarantees, the only) binding of `k`. -/
def eraseKey (l : List (K × CacheEntry V)) (k : K) : List (K × CacheEntry V) :=
  l.eraseP (fun p => decide (p.1 = k))

/-- In-place update of `Map.set` on an existing key: the binding keeps its
position in iteration order. -/
def replaceFirst (l : List (K × CacheEntry V)) (k : K) (e : CacheEntry V) :
    List (K × CacheEntry V) :=
  match l with
  | [] => []
  | p :: rest => if p.1 = k then (k, e) :: rest else p :: replaceFirst rest k e

/-- One step of the `evictLRU` scan: keep the earlier candidate unless the
current entry was accessed strictly earlier (`entry.lastAccessed < oldestTime`). -/
def oldestStep (best : Option (K × Nat)) (p : K × CacheEntry V) : Option (K × Nat) :=
  match best with
  | none => some (p.1, p.2.lastAccessed)
  | some (bk, bt) =>
      if p.2.lastAccessed < bt then some (p.1, p.2.lastAccessed) else some (bk, bt)

/-- The key selected by the `evictLRU` loop, with its `lastAccessed` stamp. -/
def oldestKey? (l : List (K × CacheEntry V)) : Option (K × Nat) :=
  l.foldl oldestStep none

/-- Model of `LRUCache.evictLRU`. -/
def evictLRU (c : LRUCache K V) : LRUCache K V :=
  match oldestKey? c.cache with
  | none => c
  | some (k, _) => { c with cache := eraseKey c.cache k }

/-- Model of `LRUCache.size`. -/
def size (c : LRUCache K V) : Nat :=
  c.cache.length

/-- Model of `LRUCache.get`: expired entries are lazily deleted, live hits
update the access metadata. -/
def get (c : LRUCache K V) (k : K) (now : Nat) : Option V × LRUCache K V :=
  match findEntry? c.cache k with
  | none => (none, c)
  | some e =>
      if e.expiresAt < now then
        (none, { c with cache := eraseKey c.cache k })
      else
        let e2 : CacheEntry V :=
          { e with accessCount := e.accessCount + 1, lastAccessed := now }
        (some e.value, { c with cache := replaceFirst c.cache k e2 })

/-- Model of `LRUCache.set`: evict when at capacity and the key is new, then
insert (replacing in place when the key already exists, as `Map.set` does). -/
def set (c : LRUCache K V) (k : K) (v : V) (now : Nat) : LRUCache K V :=
  let c1 :=
    if decide (c.maxSize ≤ c.cache.length) && (findEntry? c.cache k).isNone then
      evictLRU c
    else c
  let e : CacheEntry V := ⟨v, now + c.ttlMs, 0, now⟩
  if (findEntry? c1.cache k).isSome then
    { c1 with cache := replaceFirst c1.cache k e }
  else
    { c1 with cache := c1.cache ++ [(k, e)] }

/-- Model of `LRUCache.clear`. -/
def clear (c : LRUCache K V) : LRUCache K V :=
  { c with cache := [] }

end LRUCache

/-- Model of `zeroize` from `src/utils/crypto.ts`: overwrite every byte with 0. -/
def zeroize (b : Bytes) : Bytes :=
  List.replicate b.length 0

/-- Model of the error taxonomy in `src/errors.ts` (the cases the verified
claims need), plus `cryptoFailure` for a throw from the platform cipher. -/
inductive EncError
  | policyViolation (msg : String)
  | unsupportedAlgorithm (msg : String)
  | auditSink (msg : String)
  | keyNotFound (keyId : String)
  | circuitBreakerOpen (msg : String)
  | cryptoFailure (msg : String)
  deriving Repr, DecidableEq

/-- Model of `EncryptionRequest` from `src/types.ts`. -/
structure EncryptionRequest where
  plaintext : Bytes
  keyId : Option String := none
  algorithm : Option String := none
  additionalData : Option Bytes := none
  correlationId : Option String := none
  deriving Repr, DecidableEq

/-- Model of `EncryptionResult` from `src/types.ts`. -/
structure EncryptionResult where
  ciphertext : Bytes
  iv : Bytes
  authTag : Bytes
  keyId : String
  algorithm : String
  additionalData : Option Bytes := none
  deriving Repr, DecidableEq

/-- Model of `DecryptionRequest` from `src/types.ts`. -/
structure DecryptionRequest where
  ciphertext : Bytes
  iv : Bytes
  authTag : Option Bytes := none
  keyId : Option String := none
  algorithm : Option String := none
  additionalData : Option Bytes := none
  deriving Repr, DecidableEq

/-- Abstract AEAD cipher standing for the platform `node:crypto` AES-256-GCM
implementation (an out-of-scope external collaborator).  `enc key iv aad pt`
returns the ciphertext and auth tag; `dec key iv aad ct tag` returns the
plaintext or fails. -/
structure Aead where
  enc : Bytes → Bytes → Option Bytes → Bytes → Bytes × Bytes
  dec : Bytes → Bytes → Option Bytes → Bytes → Option Bytes → Option Bytes

/-- Functional correctness of the platform cipher: decrypting an honestly
produced ciphertext with the same key, iv, aad and tag returns the plaintext. -/
def Aead.Correct (a : Aead) : Prop :=
  ∀ key iv aad pt,
    a.dec key iv aad (a.enc key iv aad pt).1 (some (a.enc key iv aad pt).2) = some pt

/-- A concrete cipher used to instantiate witnesses. -/
def witnessAead : Aead :=
  ⟨fun _ _ _ pt => (pt, [0]), fun _ _ _ ct _ => some ct⟩

theorem witnessAead_correct : Aead.Correct witnessAead :=
  fun _ _ _ _ => rfl

/-- Randomness tape standing for `randomBytes` / `generateNonce`; each call
consumes one tape cell. -/
structure Rng where
  tape : Nat → Bytes
  idx : Nat

/-- One draw from the tape. -/
def Rng.next (r : Rng) : Bytes × Rng :=
  (r.tape r.idx, ⟨r.tape, r.idx + 1⟩)

/-- Encryption algorithms registered by the default `AlgorithmRegistry`
constructor (`src/strategies/registry.ts` registers exactly `AesGcmStrategy`). -/
def registeredEncryptionAlgorithms : List String :=
  ["AES-256-GCM"]

/-- Model of `LocalCryptoOperations` state from
`src/providers/local/crypto-ops.ts`: the private `Map<string, Buffer>` of keys
plus the default key identifier. -/
structure LocalCrypto where
  defaultKeyId : String
  keys : List (String × Bytes)
  deriving Repr, DecidableEq

/-- Lookup in the key store (`this.keys.get(keyId)`). -/
def lookupKey (keys : List (String × Bytes)) (k : String) : Option Bytes :=
  (keys.find? (fun p => decide (p.1 = k))).map (·.2)

/-- The constructor auto-provisions the default key. -/
def LocalCrypto.init (defaultKeyId : String) (k0 : Bytes) : LocalCrypto :=
  ⟨defaultKeyId, [(defaultKeyId, k0)]⟩

/-- Model of `LocalCryptoOperations.encrypt`: resolve or auto-provision the
key, then resolve the strategy (failing with UnsupportedAlgorithm when the
algorithm is unregistered), draw a nonce and encrypt. -/
def LocalCrypto.encrypt (a : Aead) (s : LocalCrypto) (rng : Rng) (req : EncryptionRequest) :
    Except EncError EncryptionResult × LocalCrypto × Rng :=
  let keyId := req.keyId.getD s.defaultKeyId
  let algorithm := req.algorithm.getD "AES-256-GCM"
  let kp : Bytes × LocalCrypto × Rng :=
    match lookupKey s.keys keyId with
    | some key => (key, s, rng)
    | none =>
        let n := rng.next
        (n.1, ⟨s.defaultKeyId, s.keys ++ [(keyId, n.1)]⟩, n.2)
  if algorithm ∈ registeredEncryptionAlgorithms then
    let n := kp.2.2.next
    let ct := a.enc kp.1 n.1 req.additionalData req.plaintext
    (.ok ⟨ct.1, n.1, ct.2, keyId, algorithm, req.additionalData⟩, kp.2.1, n.2)
  else
    (.error (.unsupportedAlgorithm algorithm), kp.2.1, kp.2.2)

/-- Model of `LocalCryptoOperations.decrypt`: the key lookup happens first and
rejects with KeyNotFound before anything else; the key store is never written. -/
def LocalCrypto.decrypt (a : Aead) (s : LocalCrypto) (req : DecryptionRequest) :
    Except EncError Bytes × LocalCrypto :=
  let keyId := req.keyId.getD s.defaultKeyId
  let algorithm := req.algorithm.getD "AES-256-GCM"
  match lookupKey s.keys keyId with
  | none => (.error (.keyNotFound keyId), s)
  | some key =>
      if algorithm ∈ registeredEncryptionAlgorithms then
        match a.dec key req.iv req.additionalData req.ciphertext req.authTag with
        | some pt => (.ok pt, s)
        | none => (.error (.cryptoFailure "decipher failed"), s)
      else
        (.error (.unsupportedAlgorithm algorithm), s)

/-- A list of encrypt calls applied in order (used to speak about states the
provider can reach through arbitrary auto-provisioning encrypts). -/
def runEncrypts (a : Aead) : LocalCrypto → Rng → List EncryptionRequest → LocalCrypto × Rng
  | s, rng, [] => (s, rng)
  | s, rng, r :: rs =>
      let e := LocalCrypto.encrypt a s rng r
      runEncrypts a e.2.1 e.2.2 rs

/-- The envelope wire payload: outer ciphertext plus the wrapped data key
sub-result (`EncryptionResult & wrappedDataKey` in `src/envelope.ts`). -/
structure EnvelopePayload where
  ciphertext : Bytes
  iv : Bytes
  authTag : Bytes
  keyId : String
  algorithm : String
  additionalData : Option Bytes
  wrappedDataKey : EncryptionResult
  deriving Repr, DecidableEq

/-- Model of an `EnvelopeEncrypter` instance from `src/envelope.ts` together
with its underlying provider (a `LocalCryptoOperations` store). -/
structure EnvelopeInstance where
  cache : LRUCache String Bytes
  keyVersion : String
  provider : LocalCrypto
  deriving Repr, DecidableEq

/-- The data key resolution step of `EnvelopeEncrypter.encrypt`: a cache hit
returns the cached key, a miss draws 32 fresh random bytes and caches them. -/
def EnvelopeInstance.dataKeyStep (inst : EnvelopeInstance) (rng : Rng) (now : Nat)
    (cacheKey : String) : Bytes × LRUCache String Bytes × Rng :=
  let g := LRUCache.get inst.cache cacheKey now
  match g.1 with
  | some dk => (dk, g.2, rng)
  | none =>
      let n := rng.next
      (n.1, LRUCache.set g.2 cacheKey n.1 now, n.2)

/-- Model of `EnvelopeEncrypter.encrypt`: look the data key up in the bounded
cache (generating and caching 32 fresh random bytes on a miss), wrap it via
the provider, then encrypt the payload under the data key with a fresh nonce. -/
def EnvelopeInstance.encrypt (a : Aead) (inst : EnvelopeInstance) (rng : Rng)
    (now : Nat) (req : EncryptionRequest) :
    Except EncError EnvelopePayload × EnvelopeInstance × Rng :=
  let keyId := req.keyId.getD "envelope-master"
  let cacheKey := keyId ++ ":" ++ inst.keyVersion
  let dkc := EnvelopeInstance.dataKeyStep inst rng now cacheKey
  let wrap := LocalCrypto.encrypt a inst.provider dkc.2.2
    ⟨dkc.1, some keyId, some "AES-256-GCM", req.additionalData, none⟩
  match wrap.1 with
  | .error e => (.error e, ⟨dkc.2.1, inst.keyVersion, wrap.2.1⟩, wrap.2.2)
  | .ok wrapped =>
      let n := wrap.2.2.next
      let ct := a.enc dkc.1 n.1 req.additionalData req.plaintext
      (.ok ⟨ct.1, n.1, ct.2, keyId, "AES-256-GCM", req.additionalData, wrapped⟩,
       ⟨dkc.2.1, inst.keyVersion, wrap.2.1⟩, n.2)

/-- Model of `EnvelopeEncrypter.decrypt`: always unwrap the embedded wrapped
data key via the provider (the local cache is never consulted), then decrypt
the outer payload. -/
def EnvelopeInstance.decrypt (a : Aead) (inst : EnvelopeInstance) (p : EnvelopePayload) :
    Except EncError Bytes :=
  let unwrap := LocalCrypto.decrypt a inst.provider
    ⟨p.wrappedDataKey.ciphertext, p.wrappedDataKey.iv, some p.wrappedDataKey.authTag,
     some p.keyId, some "AES-256-GCM", p.wrappedDataKey.additionalData⟩
  match unwrap.1 with
  | .error e => .error e
  | .ok dataKey =>
      match a.dec dataKey p.iv p.additionalData p.ciphertext (some p.authTag) with
      | some pt => .ok pt
      | none => .error (.cryptoFailure "decipher failed")

/-- Model of `EnvelopeEncrypter.rotateKeyVersion`: clear the cache and update
the version tag; the provider is untouched. -/
def EnvelopeInstance.rotateKeyVersion (inst : EnvelopeInstance) (newVersion : String) :
    EnvelopeInstance :=
  ⟨LRUCache.clear inst.cache, newVersion, inst.provider⟩

/-- Model of `CircuitState` from `src/decorators/circuit-breaker.ts`. -/
inductive CircuitState
  | CLOSED
  | OPEN
  | HALF_OPEN
  deriving Repr, DecidableEq

/-- Model of `CircuitBreakerConfig`. -/
structure CircuitBreakerConfig where
  failureThreshold : Nat
  successThreshold : Nat
  timeout : Nat
  resetTimeoutMs : Nat
  deriving Repr, DecidableEq

/-- Model of `DEFAULT_CIRCUIT_CONFIG`. -/
def DEFAULT_CIRCUIT_CONFIG : CircuitBreakerConfig :=
  ⟨5, 2, 10000, 60000⟩

/-- Mutable fields of `CircuitBreakerHealthMonitoring`. -/
structure CBState where
  state : CircuitState
  failureCount : Nat
  successCount : Nat
  nextAttempt : Nat
  deriving Repr, DecidableEq

/-- Starting breaker state (the field defaults of the class). -/
def CBState.initial : CBState :=
  ⟨.CLOSED, 0, 0, 0⟩

/-- Outcome of one wrapped health check: a result with a healthy flag, or a
thrown error. -/
inductive ProbeResult
  | healthy
  | unhealthy
  | thrown
  deriving Repr, DecidableEq

/-- Observable outcome of one `healthCheck` call on the breaker. -/
inductive HCOutcome
  | fastFail
  | result (healthy : Bool)
  | errored
  deriving Repr, DecidableEq

/-- Model of `CircuitBreakerHealthMonitoring.onSuccess`. -/
def CB.onSuccess (cfg : CircuitBreakerConfig) (s : CBState) : CBState :=
  let s1 := { s with failureCount := 0 }
  if s1.state = .HALF_OPEN then
    let s2 := { s1 with successCount := s1.successCount + 1 }
    if cfg.successThreshold ≤ s2.successCount then
      { s2 with state := .CLOSED, failureCount := 0, successCount := 0 }
    else s2
  else s1

/-- Model of `CircuitBreakerHealthMonitoring.onFailure`. -/
def CB.onFailure (cfg : CircuitBreakerConfig) (s : CBState) (now : Nat) : CBState :=
  let s1 := { s with failureCount := s.failureCount + 1, successCount := 0 }
  if cfg.failureThreshold ≤ s1.failureCount then
    { s1 with state := .OPEN, nextAttempt := now + cfg.resetTimeoutMs }
  else s1

/-- The bookkeeping performed after the wrapped check ran: a healthy result
feeds `onSuccess`, an unhealthy result or a throw feeds `onFailure`. -/
def CB.probeRun (cfg : CircuitBreakerConfig) (s : CBState) (now : Nat)
    (probe : ProbeResult) : CBState × HCOutcome :=
  match probe with
  | .healthy => (CB.onSuccess cfg s, .result true)
  | .unhealthy => (CB.onFailure cfg s now, .result false)
  | .thrown => (CB.onFailure cfg s now, .errored)

/-- Model of `CircuitBreakerHealthMonitoring.healthCheck`.  The third
component records whether the wrapped health check was invoked. -/
def CB.healthCheck (cfg : CircuitBreakerConfig) (s : CBState) (now : Nat)
    (probe : ProbeResult) : CBState × HCOutcome × Bool :=
  if s.state = .OPEN then
    if now < s.nextAttempt then
      (s, .fastFail, false)
    else
      let s1 := { s with state := .HALF_OPEN, successCount := 0 }
      let r := CB.probeRun cfg s1 now probe
      (r.1, r.2, true)
  else
    let r := CB.probeRun cfg s now probe
    (r.1, r.2, true)

/-- A sequence of health checks, each given as a (now, probe) pair. -/
def CB.run (cfg : CircuitBreakerConfig) : CBState → List (Nat × ProbeResult) → CBState
  | s, [] => s
  | s, (now, probe) :: rest => CB.run cfg (CB.healthCheck cfg s now probe).1 rest

/-- Model of `RetryConfig` from `src/decorators/retry.ts`. -/
structure RetryConfig where
  maxAttempts : Nat
  initialDelayMs : Nat
  maxDelayMs : Nat
  backoffMultiplier : Nat
  retryableErrors : Option (List String)
  deriving Repr, DecidableEq

/-- Model of `DEFAULT_RETRY_CONFIG`: note the explicit allow-list. -/
def DEFAULT_RETRY_CONFIG : RetryConfig :=
  ⟨3, 100, 5000, 2, some ["ECONNRESET", "ETIMEDOUT", "ENOTFOUND"]⟩

/-- A thrown JavaScript error as the retry logic sees it: only the optional
`code` property matters. -/
structure JsError where
  code : Option String
  deriving Repr, DecidableEq

/-- The classification in `withRetry`: when `retryableErrors` is undefined the
optional-chain plus `?? true` makes every error retryable; otherwise the error
code must appear in the list. -/
def isRetryable (cfg : RetryConfig) (e : JsError) : Bool :=
  match cfg.retryableErrors with
  | some codes => codes.any (fun c => decide (e.code = some c))
  | none => true

/-- The `withRetry` attempt loop.  `remaining` counts attempts still allowed
(the source condition `attempt === config.maxAttempts` is `remaining = 0`
after this attempt).  Returns the settled outcome (`none` only when
`maxAttempts = 0`, where the source resolves `undefined`), the number of
attempts executed, and the list of backoff delays slept. -/
def retryGo {α : Type} (cfg : RetryConfig) (op : Nat → Except JsError α) :
    Nat → Nat → Nat → Option (Except JsError α) × Nat × List Nat
  | 0, _, _ => (none, 0, [])
  | remaining + 1, attempt, delayMs =>
      match op attempt with
      | .ok v => (some (.ok v), 1, [])
      | .error e =>
          if !(isRetryable cfg e) || remaining == 0 then
            (some (.error e), 1, [])
          else
            let r := retryGo cfg op remaining (attempt + 1)
              (min (delayMs * cfg.backoffMultiplier) cfg.maxDelayMs)
            (r.1, r.2.1 + 1, delayMs :: r.2.2)

/-- Model of `withRetry` from `src/decorators/retry.ts`. -/
def withRetryModel {α : Type} (cfg : RetryConfig) (op : Nat → Except JsError α) :
    Option (Except JsError α) × Nat × List Nat :=
  retryGo cfg op cfg.maxAttempts 1 cfg.initialDelayMs

/-- An operation that fails with the same error on every attempt. -/
def alwaysFail (e : JsError) : Nat → Except JsError Bytes :=
  fun _ => .error e

/-- Model of `AuditEvent` from `src/types.ts` (the timestamp, a `Date`, is
omitted; the algorithm stands for the `metadata.algorithm` entry produced by
`createAuditEvent`). -/
structure AuditEvent where
  type : String
  provider : String
  keyId : Option String
  algorithm : Option String
  success : Bool
  correlationId : Option String
  deriving Repr, DecidableEq

/-- Model of `createAuditEvent` from `src/decorators/audit.ts`. -/
def createAuditEvent (type provider : String) (keyId algorithm : Option String)
    (success : Bool) (correlationId : Option String) : AuditEvent :=
  ⟨type, provider, keyId, algorithm, success, correlationId⟩

/-- Model of `PolicyRule` from `src/utils/policy.ts`. -/
structure PolicyRule where
  action : String
  allowedKeyIds : Option (List String)
  allowedAlgorithms : Option (List String)
  maxAgeMs : Option Nat
  deriving Repr, DecidableEq

/-- One rule of `PolicyChecker.enforce`: the three guards in source order
(the `maxAgeMs` guard reproduces the JavaScript falsiness of 0). -/
def checkRule (rule : PolicyRule) (action : String) (keyId algorithm : Option String)
    (createdAt : Option Nat) (now : Nat) : Option EncError :=
  if rule.action ≠ action then none
  else if (match rule.allowedKeyIds, keyId with
           | some allowed, some kid => !(allowed.contains kid)
           | _, _ => false) then
    some (.policyViolation "key is not allowed")
  else if (match rule.allowedAlgorithms, algorithm with
           | some allowed, some alg => !(allowed.contains alg)
           | _, _ => false) then
    some (.policyViolation "algorithm not allowed")
  else if (match rule.maxAgeMs, createdAt with
           | some m, some t => !(m == 0) && decide (m < now - t)
           | _, _ => false) then
    some (.policyViolation "key expired")
  else none

/-- Model of `PolicyChecker.enforce`: rules are scanned in order and the
first violation throws. -/
def enforce (rules : List PolicyRule) (action : String) (keyId algorithm : Option String)
    (createdAt : Option Nat) (now : Nat) : Option EncError :=
  match rules with
  | [] => none
  | rule :: rest =>
      match checkRule rule action keyId algorithm createdAt now with
      | some e => some e
      | none => enforce rest action keyId algorithm createdAt now

/-- Every metrics call the `InstrumentedCryptoOperations` decorator makes. -/
inductive MetricCall
  | latency (op : String)
  | counter (op status : String)
  deriving Repr, DecidableEq

/-- Observable output of one composed `encrypt` call: the outcome plus the
audit events emitted and the metrics calls made along the way. -/
structure OpOutput (α : Type) where
  outcome : Except EncError α
  events : List AuditEvent
  metrics : List MetricCall
  deriving Repr

/-- A core operation lifted into the observable pipeline. -/
def liftInner (inner : EncryptionRequest → Except EncError EncryptionResult) :
    EncryptionRequest → OpOutput EncryptionResult :=
  fun req => ⟨inner req, [], []⟩

/-- Model of `PolicyEnforcedCryptoOperations.encrypt`: enforce with the
resolved key id, then forward (the decorator passes no `createdAt`). -/
def policyEncrypt (rules : List PolicyRule) (defaultKeyId : String)
    (next : EncryptionRequest → OpOutput EncryptionResult) :
    EncryptionRequest → OpOutput EncryptionResult :=
  fun req =>
    match enforce rules "encrypt" (some (req.keyId.getD defaultKeyId)) req.algorithm none 0 with
    | some e => ⟨.error e, [], []⟩
    | none => next req

/-- Model of `AuditedCryptoOperations.encrypt` with a sink that always
records successfully: one event per call, `success := true` with the resolved
keyId/algorithm, or `success := false` with the request fields, then rethrow. -/
def auditEncrypt (providerName : String)
    (next : EncryptionRequest → OpOutput EncryptionResult) :
    EncryptionRequest → OpOutput EncryptionResult :=
  fun req =>
    let r := next req
    match r.outcome with
    | .ok result =>
        { r with events := r.events ++
            [createAuditEvent "encrypt" providerName (some result.keyId)
              (some result.algorithm) true req.correlationId] }
    | .error _ =>
        { r with events := r.events ++
            [createAuditEvent "encrypt" providerName req.keyId req.algorithm false
              req.correlationId] }

/-- Model of `InstrumentedCryptoOperations.encrypt` via `measureLatency`:
one latency sample and one status counter per call, on both paths. -/
def metricsEncrypt (next : EncryptionRequest → OpOutput EncryptionResult) :
    EncryptionRequest → OpOutput EncryptionResult :=
  fun req =>
    let r := next req
    match r.outcome with
    | .ok _ =>
        { r with metrics := r.metrics ++ [.latency "encrypt", .counter "encrypt" "success"] }
    | .error _ =>
        { r with metrics := r.metrics ++ [.latency "encrypt", .counter "encrypt" "error"] }

/-- The `encrypt` chain `createProvider` builds when policy, audit and metrics
are enabled: policy is wrapped first (innermost), then audit, then metrics. -/
def composedEncrypt (rules : List PolicyRule) (defaultKeyId providerName : String)
    (inner : EncryptionRequest → Except EncError EncryptionResult) :
    EncryptionRequest → OpOutput EncryptionResult :=
  metricsEncrypt (auditEncrypt providerName (policyEncrypt rules defaultKeyId (liftInner inner)))

/-- Model of `AuditedCryptoOperations.encrypt` with a fallible sink: the
emitter is awaited before the result is returned (or the error rethrown), so
an emitter throw propagates in place of the operation outcome. -/
def auditEncryptWithSink (emitter : AuditEvent → Except EncError Unit)
    (providerName : String)
    (next : EncryptionRequest → Except EncError EncryptionResult)
    (req : EncryptionRequest) : Except EncError EncryptionResult :=
  match next req with
  | .ok result =>
      match emitter (createAuditEvent "encrypt" providerName (some result.keyId)
          (some result.algorithm) true req.correlationId) with
      | .ok _ => .ok result
      | .error e => .error e
  | .error opErr =>
      match emitter (createAuditEvent "encrypt" providerName req.keyId req.algorithm false
          req.correlationId) with
      | .ok _ => .error opErr
      | .error e => .error e

/-- One cache operation (the public mutating surface used by the capacity
invariant). -/
inductive CacheOp (K V : Type)
  | setOp (k : K) (v : V) (now : Nat)
  | getOp (k : K) (now : Nat)
  | clearOp

namespace LRUCache

variable {K V : Type} [DecidableEq K]

/-- Apply one operation to the cache. -/
def applyOp (c : LRUCache K V) : CacheOp K V → LRUCache K V
  | .setOp k v now => set c k v now
  | .getOp k now => (get c k now).2
  | .clearOp => clear c

/-- Apply a sequence of operations. -/
def runOps (c : LRUCache K V) : List (CacheOp K V) → LRUCache K V
  | [] => c
  | op :: rest => runOps (applyOp c op) rest

/-- The entry that `evictLRU` is about to discard, read off before deletion. -/
def evictedEntry? (c : LRUCache K V) : Option (CacheEntry V) :=
  match oldestKey? c.cache with
  | none => none
  | some (k, _) => findEntry? c.cache k

@[simp] theorem findEntry?_nil (k : K) :
    findEntry? ([] : List (K × CacheEntry V)) k = none := rfl

@[simp] theorem findEntry?_cons (p : K × CacheEntry V) (l : List (K × CacheEntry V)) (k : K) :
    findEntry? (p :: l) k = if p.1 = k then some p.2 else findEntry? l k := by
  by_cases h : p.1 = k <;> simp [findEntry?, List.find?_cons, h]

@[simp] theorem eraseKey_nil (k : K) :
    eraseKey ([] : List (K × CacheEntry V)) k = [] := rfl

@[simp] theorem eraseKey_cons (p : K × CacheEntry V) (l : List (K × CacheEntry V)) (k : K) :
    eraseKey (p :: l) k = if p.1 = k then l else p :: eraseKey l k := by
  by_cases h : p.1 = k <;> simp [eraseKey, List.eraseP_cons, h]

theorem length_eraseKey_le (l : List (K × CacheEntry V)) (k : K) :
    (eraseKey l k).length ≤ l.length := by
  induction l with
  | nil => simp
  | cons p rest ih =>
      by_cases h : p.1 = k <;> simp [h] <;> omega

theorem length_eraseKey_of_found (l : List (K × CacheEntry V)) (k : K)
    (h : (findEntry? l k).isSome) :
    (eraseKey l k).length + 1 = l.length := by
  induction l with
  | nil => simp at h
  | cons p rest ih =>
      by_cases hp : p.1 = k
      · simp [hp]
      · simp [hp] at h ⊢
        exact ih h

theorem findEntry?_isSome_of_mem (l : List (K × CacheEntry V)) (p : K × CacheEntry V)
    (hp : p ∈ l) : (findEntry? l p.1).isSome := by
  induction l with
  | nil => simp at hp
  | cons q rest ih =>
      rcases List.mem_cons.mp hp with rfl | hmem
      · simp
      · by_cases hq : q.1 = p.1 <;> simp [hq, ih hmem]

theorem findEntry?_eraseKey_none (l : List (K × CacheEntry V)) (k k2 : K)
    (h : findEntry? l k = none) : findEntry? (eraseKey l k2) k = none := by
  induction l with
  | nil => simp
  | cons p rest ih =>
      by_cases hp : p.1 = k
      · simp [hp] at h
      · have h2 : findEntry? rest k = none := by simpa [hp] using h
        by_cases hp2 : p.1 = k2
        · simpa [hp2] using h2
        · simp [hp2, hp, ih h2]

theorem length_replaceFirst (l : List (K × CacheEntry V)) (k : K) (e : CacheEntry V) :
    (replaceFirst l k e).length = l.length := by
  induction l with
  | nil => rfl
  | cons p rest ih =>
      by_cases h : p.1 = k <;> simp [replaceFirst, h, ih]

theorem foldl_oldestStep_spec (l : List (K × CacheEntry V)) (b : K × Nat) :
    ∃ r, List.foldl oldestStep (some b) l = some r ∧ r.2 ≤ b.2 ∧
      (r = b ∨ ∃ p ∈ l, r = (p.1, p.2.lastAccessed)) ∧
      ∀ p ∈ l, r.2 ≤ p.2.lastAccessed := by
  induction l generalizing b with
  | nil => exact ⟨b, rfl, le_refl _, Or.inl rfl, by simp⟩
  | cons q rest ih =>
      by_cases hlt : q.2.lastAccessed < b.2
      · obtain ⟨r, hr, hle, hmem, hmin⟩ := ih (q.1, q.2.lastAccessed)
        refine ⟨r, ?_, ?_, ?_, ?_⟩
        · simpa [oldestStep, hlt] using hr
        · exact le_trans hle (le_of_lt hlt)
        · rcases hmem with rfl | ⟨p, hp, hreq⟩
          · exact Or.inr ⟨q, List.mem_cons_self q rest, rfl⟩
          · exact Or.inr ⟨p, List.mem_cons_of_mem q hp, hreq⟩
        · intro p hp
          rcases List.mem_cons.mp hp with rfl | hprest
          · exact hle
          · exact hmin p hprest
      · obtain ⟨r, hr, hle, hmem, hmin⟩ := ih b
        refine ⟨r, ?_, hle, ?_, ?_⟩
        · simpa [oldestStep, hlt] using hr
        · rcases hmem with rfl | ⟨p, hp, hreq⟩
          · exact Or.inl rfl
          · exact Or.inr ⟨p, List.mem_cons_of_mem q hp, hreq⟩
        · intro p hp
          rcases List.mem_cons.mp hp with rfl | hprest
          · exact le_trans hle (Nat.le_of_not_lt hlt)
          · exact hmin p hprest

theorem oldestKey?_spec (l : List (K × CacheEntry V)) (hne : l ≠ []) :
    ∃ k t, oldestKey? l = some (k, t) ∧
      (∃ p ∈ l, p.1 = k ∧ p.2.lastAccessed = t) ∧
      ∀ p ∈ l, t ≤ p.2.lastAccessed := by
  cases l with
  | nil => exact absurd rfl hne
  | cons q rest =>
      obtain ⟨r, hr, hle, hmem, hmin⟩ := foldl_oldestStep_spec rest (q.1, q.2.lastAccessed)
      refine ⟨r.1, r.2, ?_, ?_, ?_⟩
      · simpa [oldestKey?, oldestStep] using hr
      · rcases hmem with rfl | ⟨p, hp, hreq⟩
        · exact ⟨q, List.mem_cons_self q rest, rfl, rfl⟩
        · exact ⟨p, List.mem_cons_of_mem q hp, by simp [hreq], by simp [hreq]⟩
      · intro p hp
        rcases List.mem_cons.mp hp with rfl | hprest
        · exact hle
        · exact hmin p hprest

theorem length_evictLRU (c : LRUCache K V) (hne : c.cache ≠ []) :
    (evictLRU c).cache.length + 1 = c.cache.length := by
  obtain ⟨k, t, hok, ⟨p, hp, hpk, _⟩, _⟩ := oldestKey?_spec c.cache hne
  have hfound : (findEntry? c.cache k).isSome := by
    have := findEntry?_isSome_of_mem c.cache p hp
    rwa [hpk] at this
  simp only [evictLRU, hok]
  exact length_eraseKey_of_found c.cache k hfound

theorem maxSize_set (c : LRUCache K V) (k : K) (v : V) (now : Nat) :
    (set c k v now).maxSize = c.maxSize := by
  simp only [set, evictLRU]
  split <;> split <;> first | rfl | (split <;> rfl)

theorem ttlMs_set (c : LRUCache K V) (k : K) (v : V) (now : Nat) :
    (set c k v now).ttlMs = c.ttlMs := by
  simp only [set, evictLRU]
  split <;> split <;> first | rfl | (split <;> rfl)

theorem length_set_le (c : LRUCache K V) (k : K) (v : V) (now : Nat)
    (hmax : 1 ≤ c.maxSize) (hc : c.cache.length ≤ c.maxSize) :
    (set c k v now).cache.length ≤ c.maxSize := by
  rcases hf : findEntry? c.cache k with _ | e
  · by_cases hlen : c.maxSize ≤ c.cache.length
    · have hcap : c.cache.length = c.maxSize := le_antisymm hc hlen
      have hne : c.cache ≠ [] := by
        intro hnil
        rw [hnil] at hcap
        simp at hcap
        omega
      have hev := length_evictLRU c hne
      have habs2 : findEntry? (evictLRU c).cache k = none := by
        rcases hok : oldestKey? c.cache with _ | ⟨k2, t⟩
        · simpa [evictLRU, hok] using hf
        · simpa [evictLRU, hok] using findEntry?_eraseKey_none c.cache k k2 hf
      have hlen2 : (set c k v now).cache.length = (evictLRU c).cache.length + 1 := by
        simp [set, hf, hlen, habs2]
      omega
    · have hlen2 : (set c k v now).cache.length = c.cache.length + 1 := by
        simp [set, hf, hlen]
      omega
  · have hlen2 : (set c k v now).cache.length = c.cache.length := by
      simp [set, hf, length_replaceFirst]
    omega

theorem length_get_le (c : LRUCache K V) (k : K) (now : Nat) :
    (get c k now).2.cache.length ≤ c.cache.length := by
  simp only [get]
  rcases hf : findEntry? c.cache k with _ | e
  · simp
  · by_cases hexp : e.expiresAt < now
    · simp only [hexp, if_true]
      exact length_eraseKey_le c.cache k
    · simp only [hexp, if_false]
      rw [length_replaceFirst]

theorem maxSize_applyOp (c : LRUCache K V) (op : CacheOp K V) :
    (applyOp c op).maxSize = c.maxSize := by
  rcases op with ⟨k, v, now⟩ | ⟨k, now⟩ | _
  · exact maxSize_set c k v now
  · simp only [applyOp, get]
    rcases hf : findEntry? c.cache k with _ | e
    · rfl
    · by_cases hexp : e.expiresAt < now <;> simp [hexp]
  · rfl

theorem length_applyOp_le (c : LRUCache K V) (op : CacheOp K V)
    (hmax : 1 ≤ c.maxSize) (hc : c.cache.length ≤ c.maxSize) :
    (applyOp c op).cache.length ≤ c.maxSize := by
  rcases op with ⟨k, v, now⟩ | ⟨k, now⟩ | _
  · exact length_set_le c k v now hmax hc
  · exact le_trans (length_get_le c k now) hc
  · simpa [applyOp, clear] using Nat.zero_le _

theorem runOps_invariant (ops : List (CacheOp K V)) (c : LRUCache K V)
    (hmax : 1 ≤ c.maxSize) (hc : c.cache.length ≤ c.maxSize) :
    (runOps c ops).cache.length ≤ (runOps c ops).maxSize := by
  induction ops generalizing c with
  | nil => simpa [runOps] using hc
  | cons op rest ih =>
      have hm := maxSize_applyOp c op
      have h1 : 1 ≤ (applyOp c op).maxSize := by omega
      have h2 : (applyOp c op).cache.length ≤ (applyOp c op).maxSize := by
        rw [hm]
        exact length_applyOp_le c op hmax hc
      exact ih (applyOp c op) h1 h2

end LRUCache

namespace LRUCache

variable {K V : Type} [DecidableEq K]

theorem maxSize_runOps (ops : List (CacheOp K V)) (c : LRUCache K V) :
    (runOps c ops).maxSize = c.maxSize := by
  induction ops generalizing c with
  | nil => rfl
  | cons op rest ih => rw [runOps, ih, maxSize_applyOp]

theorem set_at_capacity_spec (c : LRUCache K V) (k : K) (v : V) (now : Nat)
    (hmax : 1 ≤ c.maxSize) (hcap : c.cache.length = c.maxSize)
    (hnew : findEntry? c.cache k = none) :
    ∃ ek et, oldestKey? c.cache = some (ek, et) ∧
      (∃ p ∈ c.cache, p.1 = ek ∧ p.2.lastAccessed = et) ∧
      (∀ p ∈ c.cache, et ≤ p.2.lastAccessed) ∧
      (set c k v now).cache =
        eraseKey c.cache ek ++ [(k, ⟨v, now + c.ttlMs, 0, now⟩)] ∧
      (set c k v now).cache.length = c.maxSize := by
  have hne : c.cache ≠ [] := by
    intro hnil
    rw [hnil] at hcap
    simp at hcap
    omega
  obtain ⟨ek, et, hok, hmem, hmin⟩ := oldestKey?_spec c.cache hne
  have hev : evictLRU c = { c with cache := eraseKey c.cache ek } := by
    simp [evictLRU, hok]
  have habs2 : findEntry? (eraseKey c.cache ek) k = none :=
    findEntry?_eraseKey_none c.cache k ek hnew
  have hlen : c.maxSize ≤ c.cache.length := le_of_eq hcap.symm
  have hsetcache : (set c k v now).cache =
      eraseKey c.cache ek ++ [(k, ⟨v, now + c.ttlMs, 0, now⟩)] := by
    simp [set, hnew, hlen, hev, habs2]
  refine ⟨ek, et, hok, hmem, hmin, hsetcache, ?_⟩
  obtain ⟨p, hp, hpk, _⟩ := hmem
  have hfound : (findEntry? c.cache ek).isSome := by
    have := findEntry?_isSome_of_mem c.cache p hp
    rwa [hpk] at this
  have herase := length_eraseKey_of_found c.cache ek hfound
  rw [hsetcache]
  simp only [List.length_append, List.length_cons, List.length_nil]
  omega

end LRUCache

/-- C7 (amended, maxSize at least 1): starting from a fresh cache, after any
sequence of set, get and clear operations the size never exceeds maxSize; and
whenever set is called on a cache at capacity with a new key, exactly one
entry is evicted before insertion, namely one whose lastAccessed stamp is
minimal over the whole cache (the first such entry in iteration order). -/
theorem c7_cache_capacity_invariant {K V : Type} [DecidableEq K]
    (maxSize ttlMs : Nat) (ops : List (CacheOp K V))
    (c : LRUCache K V) (k : K) (v : V) (now : Nat)
    (hmax : 1 ≤ maxSize) (hmaxc : 1 ≤ c.maxSize)
    (hcap : c.cache.length = c.maxSize)
    (hnew : LRUCache.findEntry? c.cache k = none) :
    (LRUCache.runOps (LRUCache.emptyCache maxSize ttlMs) ops).size ≤ maxSize ∧
    (∃ ek et, LRUCache.oldestKey? c.cache = some (ek, et) ∧
      (∃ p ∈ c.cache, p.1 = ek ∧ p.2.lastAccessed = et) ∧
      (∀ p ∈ c.cache, et ≤ p.2.lastAccessed) ∧
      (LRUCache.set c k v now).cache =
        LRUCache.eraseKey c.cache ek ++ [(k, ⟨v, now + c.ttlMs, 0, now⟩)] ∧
      (LRUCache.set c k v now).cache.length = c.maxSize) := by
  constructor
  · have hinv := LRUCache.runOps_invariant ops (LRUCache.emptyCache maxSize ttlMs)
      (by simpa [LRUCache.emptyCache] using hmax)
      (by simp [LRUCache.emptyCache])
    have hms : (LRUCache.runOps (LRUCache.emptyCache maxSize ttlMs : LRUCache K V) ops).maxSize
        = maxSize := by
      rw [LRUCache.maxSize_runOps]
      rfl
    exact le_trans hinv (le_of_eq hms)
  · exact LRUCache.set_at_capacity_spec c k v now hmaxc hcap hnew

/-- C7 witness: the invariant instantiated on a concrete run, and the
eviction clause instantiated on a concrete cache at capacity 2. -/
theorem c7_cache_capacity_invariant_witness :
    (LRUCache.runOps (LRUCache.emptyCache 2 100 : LRUCache String Bytes)
        [.setOp "A" [1] 0, .setOp "B" [2] 1, .setOp "C" [3] 2]).size ≤ 2 ∧
    (∃ ek et,
      LRUCache.oldestKey?
        (⟨2, 100, [("A", ⟨[1], 100, 0, 0⟩), ("B", ⟨[2], 101, 0, 1⟩)]⟩ :
          LRUCache String Bytes).cache = some (ek, et) ∧
      (∃ p ∈ (⟨2, 100, [("A", ⟨[1], 100, 0, 0⟩), ("B", ⟨[2], 101, 0, 1⟩)]⟩ :
          LRUCache String Bytes).cache, p.1 = ek ∧ p.2.lastAccessed = et) ∧
      (∀ p ∈ (⟨2, 100, [("A", ⟨[1], 100, 0, 0⟩), ("B", ⟨[2], 101, 0, 1⟩)]⟩ :
          LRUCache String Bytes).cache, et ≤ p.2.lastAccessed) ∧
      (LRUCache.set (⟨2, 100, [("A", ⟨[1], 100, 0, 0⟩), ("B", ⟨[2], 101, 0, 1⟩)]⟩ :
          LRUCache String Bytes) "C" [3] 3).cache =
        LRUCache.eraseKey
          (⟨2, 100, [("A", ⟨[1], 100, 0, 0⟩), ("B", ⟨[2], 101, 0, 1⟩)]⟩ :
            LRUCache String Bytes).cache ek ++ [("C", ⟨[3], 103, 0, 3⟩)] ∧
      (LRUCache.set (⟨2, 100, [("A", ⟨[1], 100, 0, 0⟩), ("B", ⟨[2], 101, 0, 1⟩)]⟩ :
          LRUCache String Bytes) "C" [3] 3).cache.length = 2) :=
  c7_cache_capacity_invariant 2 100
    [.setOp "A" [1] 0, .setOp "B" [2] 1, .setOp "C" [3] 2]
    (⟨2, 100, [("A", ⟨[1], 100, 0, 0⟩), ("B", ⟨[2], 101, 0, 1⟩)]⟩ : LRUCache String Bytes)
    "C" [3] 3 (by decide) (by decide) (by decide) (by decide)

/-- C7 counterexample: as literally stated the claim also covers a cache
constructed with maxSize = 0, where one set leaves size 1 above the bound,
because evictLRU on an empty cache removes nothing and the insert proceeds. -/
theorem c7_counterexample :
    (LRUCache.set (LRUCache.emptyCache 0 100 : LRUCache String Bytes) "A" [1] 0).size = 1 ∧
    ¬((LRUCache.set (LRUCache.emptyCache 0 100 : LRUCache String Bytes) "A" [1] 0).size ≤
      (LRUCache.set (LRUCache.emptyCache 0 100 : LRUCache String Bytes) "A" [1] 0).maxSize) := by
  decide

/-- C8: with maxSize = 2, after set A, set B, get A (refreshing recency) and
set C, key B was evicted while A and C are present. -/
theorem c8_lru_eviction_order :
    (LRUCache.get (LRUCache.set (LRUCache.set
        (LRUCache.emptyCache 2 100 : LRUCache String Bytes) "A" [1] 0) "B" [2] 1) "A" 2).1 =
      some [1] ∧
    (LRUCache.findEntry?
      (LRUCache.set
        (LRUCache.get (LRUCache.set (LRUCache.set
          (LRUCache.emptyCache 2 100 : LRUCache String Bytes) "A" [1] 0) "B" [2] 1) "A" 2).2
        "C" [3] 3).cache "A").isSome = true ∧
    (LRUCache.findEntry?
      (LRUCache.set
        (LRUCache.get (LRUCache.set (LRUCache.set
          (LRUCache.emptyCache 2 100 : LRUCache String Bytes) "A" [1] 0) "B" [2] 1) "A" 2).2
        "C" [3] 3).cache "B") = none ∧
    (LRUCache.set
      (LRUCache.get (LRUCache.set (LRUCache.set
        (LRUCache.emptyCache 2 100 : LRUCache String Bytes) "A" [1] 0) "B" [2] 1) "A" 2).2
      "C" [3] 3).cache.map Prod.fst = ["A", "C"] := by
  decide

/-- The data key cached in the C10 scenario. -/
def c10DataKey : Bytes := [1, 2, 3]

/-- A one-slot cache holding the data key, as the envelope encrypter caches it. -/
def c10Cache : LRUCache String Bytes :=
  LRUCache.set (LRUCache.emptyCache 1 300000) "envelope-master:v1" c10DataKey 0

/-- An envelope instance over that cache. -/
def c10Inst : EnvelopeInstance :=
  ⟨c10Cache, "v1", LocalCrypto.init "local-default" [7]⟩

/-- C10 evidence: the entry discarded by evictLRU (triggered by a set at
capacity) and by rotateKeyVersion clearing the cache still holds exactly the
original, non-zero key bytes: no zeroing transformation is applied to any
discarded data key anywhere in the model of the source, although the source
does ship a `zeroize` helper, used elsewhere for signing-key material. -/
theorem c10_discarded_keys_not_zeroed :
    (LRUCache.evictedEntry? c10Cache).map (fun e => e.value) = some c10DataKey ∧
    (LRUCache.evictLRU c10Cache).cache = [] ∧
    (LRUCache.set c10Cache "other:v1" [4] 1).cache.map Prod.fst = ["other:v1"] ∧
    (c10Inst.rotateKeyVersion "v2").cache.cache = [] ∧
    c10Inst.cache.cache.map (fun p => p.2.value) = [c10DataKey] ∧
    c10DataKey ≠ zeroize c10DataKey := by
  decide

/-- C3 config for the counterexample run: failureThreshold 2, successThreshold 2. -/
def c3Cfg : CircuitBreakerConfig := ⟨2, 2, 10000, 60000⟩

/-- C3 run: two failures open the breaker at t = 1 (nextAttempt 60001); at
t = 70000 the breaker probes HALF_OPEN and the probe succeeds; at t = 70001 a
probe fails. -/
def c3Run : CBState :=
  CB.run c3Cfg CBState.initial
    [(0, .unhealthy), (1, .unhealthy), (70000, .healthy), (70001, .unhealthy)]

/-- C3 counterexample: after a probe success inside the HALF_OPEN episode, a
single probe failure leaves the breaker in HALF_OPEN with the old nextAttempt,
rather than transitioning to OPEN and re-arming as the claim states (the
success reset failureCount to 0, so onFailure does not reach the threshold). -/
theorem c3_counterexample :
    (CB.run c3Cfg CBState.initial
      [(0, .unhealthy), (1, .unhealthy), (70000, .healthy)]).state =
        CircuitState.HALF_OPEN ∧
    c3Run.state = CircuitState.HALF_OPEN ∧
    c3Run.nextAttempt = 60001 ∧
    ¬(c3Run.state = CircuitState.OPEN ∧
      c3Run.nextAttempt = 70001 + c3Cfg.resetTimeoutMs) := by
  decide

/-- C3 (amended): a failure while HALF_OPEN transitions the breaker to OPEN
and re-arms nextAttempt exactly when the accumulated failureCount reaches
failureThreshold; a failure with no preceding probe success in the episode
does reopen (the count carried over from OPEN already meets the threshold),
but once a probe success has reset failureCount to 0, a single failure leaves
the breaker in HALF_OPEN with nextAttempt unchanged. -/
theorem c3_half_open_failure (cfg : CircuitBreakerConfig) (s : CBState) (now : Nat)
    (probe : ProbeResult) (hs : s.state = .HALF_OPEN)
    (hp : probe = .unhealthy ∨ probe = .thrown) :
    (cfg.failureThreshold ≤ s.failureCount + 1 →
      (CB.healthCheck cfg s now probe).1.state = .OPEN ∧
      (CB.healthCheck cfg s now probe).1.nextAttempt = now + cfg.resetTimeoutMs) ∧
    (s.failureCount + 1 < cfg.failureThreshold →
      (CB.healthCheck cfg s now probe).1.state = .HALF_OPEN ∧
      (CB.healthCheck cfg s now probe).1.nextAttempt = s.nextAttempt) := by
  constructor
  · intro hth
    rcases hp with rfl | rfl <;>
      simp [CB.healthCheck, hs, CB.probeRun, CB.onFailure, hth]
  · intro hlt
    have hnth : ¬ cfg.failureThreshold ≤ s.failureCount + 1 := by omega
    rcases hp with rfl | rfl <;>
      simp [CB.healthCheck, hs, CB.probeRun, CB.onFailure, hnth]

/-- C3 witness: a HALF_OPEN breaker with the failure count carried over from
OPEN reopens on a single probe failure and re-arms nextAttempt. -/
theorem c3_half_open_failure_witness :
    (CB.healthCheck ⟨2, 2, 10000, 60000⟩ ⟨.HALF_OPEN, 1, 0, 60001⟩ 70001 .unhealthy).1.state
      = CircuitState.OPEN ∧
    (CB.healthCheck ⟨2, 2, 10000, 60000⟩ ⟨.HALF_OPEN, 1, 0, 60001⟩ 70001 .unhealthy).1.nextAttempt
      = 70001 + 60000 :=
  (c3_half_open_failure ⟨2, 2, 10000, 60000⟩ ⟨.HALF_OPEN, 1, 0, 60001⟩ 70001 .unhealthy
    rfl (Or.inl rfl)).1 (by decide)

/-- C9: while the breaker is OPEN, a healthCheck before nextAttempt fails fast
with CircuitBreakerOpen and never invokes the wrapped check, leaving the state
untouched; the first call at or after nextAttempt switches to HALF_OPEN
(success count reset) and does invoke the wrapped check. -/
theorem c9_open_fast_fail (cfg : CircuitBreakerConfig) (s : CBState) (now : Nat)
    (probe : ProbeResult) (hs : s.state = .OPEN) :
    (now < s.nextAttempt →
      CB.healthCheck cfg s now probe = (s, .fastFail, false)) ∧
    (s.nextAttempt ≤ now →
      CB.healthCheck cfg s now probe =
        ((CB.probeRun cfg { s with state := .HALF_OPEN, successCount := 0 } now probe).1,
         (CB.probeRun cfg { s with state := .HALF_OPEN, successCount := 0 } now probe).2,
         true)) := by
  constructor
  · intro hlt
    simp [CB.healthCheck, hs, hlt]
  · intro hge
    have hnlt : ¬ now < s.nextAttempt := by omega
    simp [CB.healthCheck, hs, hnlt]

/-- C9 witness: both branches of the OPEN gate at concrete inputs. -/
theorem c9_open_fast_fail_witness :
    (CB.healthCheck DEFAULT_CIRCUIT_CONFIG ⟨.OPEN, 5, 0, 60001⟩ 100 .healthy =
      (⟨.OPEN, 5, 0, 60001⟩, .fastFail, false)) ∧
    (CB.healthCheck DEFAULT_CIRCUIT_CONFIG ⟨.OPEN, 5, 0, 60001⟩ 60001 .healthy =
      ((CB.probeRun DEFAULT_CIRCUIT_CONFIG ⟨.HALF_OPEN, 5, 0, 60001⟩ 60001 .healthy).1,
       (CB.probeRun DEFAULT_CIRCUIT_CONFIG ⟨.HALF_OPEN, 5, 0, 60001⟩ 60001 .healthy).2,
       true)) :=
  ⟨(c9_open_fast_fail DEFAULT_CIRCUIT_CONFIG ⟨.OPEN, 5, 0, 60001⟩ 100 .healthy rfl).1
      (by decide),
   (c9_open_fast_fail DEFAULT_CIRCUIT_CONFIG ⟨.OPEN, 5, 0, 60001⟩ 60001 .healthy rfl).2
      (by decide)⟩

/-- C4 counterexample: under `DEFAULT_RETRY_CONFIG`, an error carrying no
code (hence no match in the allow-list) is thrown after a single attempt with
no backoff, although maxAttempts is 3 — the default classification is an
allow-list, not allow-all-unless-excluded. -/
theorem c4_counterexample :
    withRetryModel DEFAULT_RETRY_CONFIG (alwaysFail ⟨none⟩) =
      (some (.error ⟨none⟩), 1, []) ∧
    DEFAULT_RETRY_CONFIG.maxAttempts = 3 ∧
    isRetryable DEFAULT_RETRY_CONFIG ⟨none⟩ = false := by
  decide

/-- C4 (amended): under the default retry configuration only errors whose
code is ECONNRESET, ETIMEDOUT or ENOTFOUND are classified transient; those
are retried with exponential backoff (delays 100 then 200) up to the three
attempts and the final error is rethrown as-is, while every other error is
rethrown after the first attempt; the allow-all classification applies only
when a configuration omits retryableErrors. -/
theorem c4_default_retry_classification (e : JsError) :
    (isRetryable DEFAULT_RETRY_CONFIG e = true ↔
      (e.code = some "ECONNRESET" ∨ e.code = some "ETIMEDOUT" ∨
        e.code = some "ENOTFOUND")) ∧
    (isRetryable DEFAULT_RETRY_CONFIG e = true →
      withRetryModel DEFAULT_RETRY_CONFIG (alwaysFail e) =
        (some (.error e), 3, [100, 200])) ∧
    (isRetryable DEFAULT_RETRY_CONFIG e = false →
      withRetryModel DEFAULT_RETRY_CONFIG (alwaysFail e) =
        (some (.error e), 1, [])) ∧
    withRetryModel (⟨3, 100, 5000, 2, none⟩ : RetryConfig) (alwaysFail e) =
      (some (.error e), 3, [100, 200]) := by
  have hm : DEFAULT_RETRY_CONFIG.backoffMultiplier = 2 := rfl
  have hd : DEFAULT_RETRY_CONFIG.maxDelayMs = 5000 := rfl
  refine ⟨?_, ?_, ?_, ?_⟩
  · simp [isRetryable, DEFAULT_RETRY_CONFIG]
  · intro h
    show retryGo DEFAULT_RETRY_CONFIG (alwaysFail e) 3 1 100 = (some (.error e), 3, [100, 200])
    simp [retryGo, alwaysFail, h, hm, hd]
  · intro h
    show retryGo DEFAULT_RETRY_CONFIG (alwaysFail e) 3 1 100 = (some (.error e), 1, [])
    simp [retryGo, alwaysFail, h]
  · have h : isRetryable (⟨3, 100, 5000, 2, none⟩ : RetryConfig) e = true := rfl
    show retryGo (⟨3, 100, 5000, 2, none⟩ : RetryConfig) (alwaysFail e) 3 1 100 =
      (some (.error e), 3, [100, 200])
    simp [retryGo, alwaysFail, h]

/-- C4 witness: one allow-listed code is retried to three attempts with
delays 100 and 200; a code outside the list fails on the first attempt. -/
theorem c4_default_retry_classification_witness :
    (isRetryable DEFAULT_RETRY_CONFIG ⟨some "ETIMEDOUT"⟩ = true ∧
     withRetryModel DEFAULT_RETRY_CONFIG (alwaysFail ⟨some "ETIMEDOUT"⟩) =
       (some (.error ⟨some "ETIMEDOUT"⟩), 3, [100, 200])) ∧
    (isRetryable DEFAULT_RETRY_CONFIG ⟨some "EACCES"⟩ = false ∧
     withRetryModel DEFAULT_RETRY_CONFIG (alwaysFail ⟨some "EACCES"⟩) =
       (some (.error ⟨some "EACCES"⟩), 1, [])) :=
  ⟨⟨by decide, (c4_default_retry_classification ⟨some "ETIMEDOUT"⟩).2.1 (by decide)⟩,
   ⟨by decide, (c4_default_retry_classification ⟨some "EACCES"⟩).2.2.1 (by decide)⟩⟩

/-- Policy rules for the C2 counterexample: encrypt allowed only for one key. -/
def c2Rules : List PolicyRule := [⟨"encrypt", some ["allowed-key"], none, none⟩]

/-- Request for a key the rule rejects. -/
def c2Req : EncryptionRequest := ⟨[1], some "forbidden", none, none, none⟩

/-- An arbitrary core operation (irrelevant: policy rejects before it runs). -/
def c2Inner : EncryptionRequest → Except EncError EncryptionResult :=
  fun _ => .error (.keyNotFound "unreachable")

/-- C2 counterexample: with policy, audit and metrics enabled, a
policy-rejected encrypt produces one failed audit event and one error counter
increment plus one latency sample — not zero of each — because createProvider
wires policy as the innermost layer, inside audit and metrics. -/
theorem c2_counterexample :
    (composedEncrypt c2Rules "local-default" "local" c2Inner c2Req).events =
      [createAuditEvent "encrypt" "local" (some "forbidden") none false none] ∧
    (composedEncrypt c2Rules "local-default" "local" c2Inner c2Req).metrics =
      [.latency "encrypt", .counter "encrypt" "error"] ∧
    ¬((composedEncrypt c2Rules "local-default" "local" c2Inner c2Req).events.length = 0 ∧
      (composedEncrypt c2Rules "local-default" "local" c2Inner c2Req).metrics.length = 0) := by
  decide

/-- C2 (amended): whenever the policy checker rejects an encrypt request, the
composed provider emits exactly one audit event (success false, with the
request key id and algorithm) and exactly one counter increment with status
error plus one latency sample, and the outcome is the PolicyViolation; the
right-hand side does not mention the core operation, which is therefore never
invoked. -/
theorem c2_policy_rejection_observability (rules : List PolicyRule)
    (dk pn : String) (inner : EncryptionRequest → Except EncError EncryptionResult)
    (req : EncryptionRequest) (e : EncError)
    (h : enforce rules "encrypt" (some (req.keyId.getD dk)) req.algorithm none 0 = some e) :
    composedEncrypt rules dk pn inner req =
      ⟨.error e,
       [createAuditEvent "encrypt" pn req.keyId req.algorithm false req.correlationId],
       [.latency "encrypt", .counter "encrypt" "error"]⟩ := by
  simp [composedEncrypt, metricsEncrypt, auditEncrypt, policyEncrypt, liftInner, h]

/-- C2 witness: the amended statement at the concrete rejected request. -/
theorem c2_policy_rejection_observability_witness :
    enforce c2Rules "encrypt" (some (c2Req.keyId.getD "local-default")) c2Req.algorithm
      none 0 = some (.policyViolation "key is not allowed") ∧
    composedEncrypt c2Rules "local-default" "local" c2Inner c2Req =
      ⟨.error (.policyViolation "key is not allowed"),
       [createAuditEvent "encrypt" "local" (some "forbidden") none false none],
       [.latency "encrypt", .counter "encrypt" "error"]⟩ :=
  ⟨by decide,
   c2_policy_rejection_observability c2Rules "local-default" "local" c2Inner c2Req
     (.policyViolation "key is not allowed") (by decide)⟩

/-- The successful result of the C5 scenario. -/
def c5Result : EncryptionResult := ⟨[9], [1], [2], "k1", "AES-256-GCM", none⟩

/-- C5 evidence: when the wrapped encrypt succeeds but the audit sink throws,
the audit decorator awaits the emitter before returning, so the caller
receives the AuditSinkError instead of the successful result; on the failure
path the original operation error is likewise replaced by the sink error. -/
theorem c5_sink_failure_replaces_outcome :
    auditEncryptWithSink (fun _ => .error (.auditSink "sink failed")) "local"
        (fun _ => .ok c5Result) ⟨[1], none, none, none, none⟩ =
      .error (.auditSink "sink failed") ∧
    (Except.error (EncError.auditSink "sink failed") ≠
      (Except.ok c5Result : Except EncError EncryptionResult)) ∧
    auditEncryptWithSink (fun _ => .error (.auditSink "sink failed")) "local"
        (fun _ => .error (.keyNotFound "k2")) ⟨[1], none, none, none, none⟩ =
      .error (.auditSink "sink failed") := by
  decide

/-- C6: decrypt on a key identifier absent from the store fails with
KeyNotFound and leaves the key store untouched, no matter which other
identifiers earlier encrypt calls auto-provisioned. -/
theorem c6_decrypt_never_autoprovisions (a : Aead) (d0 : String) (k0 : Bytes)
    (rng : Rng) (reqs : List EncryptionRequest) (k : String) (req : DecryptionRequest)
    (hkid : req.keyId = some k)
    (h : lookupKey (runEncrypts a (LocalCrypto.init d0 k0) rng reqs).1.keys k = none) :
    LocalCrypto.decrypt a (runEncrypts a (LocalCrypto.init d0 k0) rng reqs).1 req =
      (.error (.keyNotFound k), (runEncrypts a (LocalCrypto.init d0 k0) rng reqs).1) := by
  simp [LocalCrypto.decrypt, hkid, h]

/-- Randomness tape for the C6 witness. -/
def c6Tape : Rng := ⟨fun i => [i], 0⟩

/-- Provider state reached after two auto-provisioning encrypts. -/
def c6State : LocalCrypto :=
  (runEncrypts witnessAead (LocalCrypto.init "local-default" [7]) c6Tape
    [⟨[1], some "x", none, none, none⟩, ⟨[2], some "y", none, none, none⟩]).1

/-- C6 witness: after auto-provisioning keys x and y, decrypting with the
unseen identifier zz fails with KeyNotFound and does not change the store. -/
theorem c6_decrypt_never_autoprovisions_witness :
    (⟨[5], [6], none, some "zz", none, none⟩ : DecryptionRequest).keyId = some "zz" ∧
    lookupKey c6State.keys "zz" = none ∧
    LocalCrypto.decrypt witnessAead c6State ⟨[5], [6], none, some "zz", none, none⟩ =
      (.error (.keyNotFound "zz"), c6State) :=
  ⟨rfl, by decide,
   c6_decrypt_never_autoprovisions witnessAead "local-default" [7] c6Tape
     [⟨[1], some "x", none, none, none⟩, ⟨[2], some "y", none, none, none⟩]
     "zz" ⟨[5], [6], none, some "zz", none, none⟩ rfl (by decide)⟩

theorem lookupKey_cons (p : String × Bytes) (l : List (String × Bytes)) (k : String) :
    lookupKey (p :: l) k = if p.1 = k then some p.2 else lookupKey l k := by
  by_cases h : p.1 = k <;> simp [lookupKey, List.find?_cons, h]

theorem lookupKey_append_self (keys : List (String × Bytes)) (k : String) (key : Bytes)
    (h : lookupKey keys k = none) : lookupKey (keys ++ [(k, key)]) k = some key := by
  induction keys with
  | nil => simp [lookupKey]
  | cons p rest ih =>
      by_cases hp : p.1 = k
      · simp [lookupKey_cons, hp] at h
      · have h2 : lookupKey rest k = none := by simpa [lookupKey_cons, hp] using h
        simpa [lookupKey_cons, hp] using ih h2

/-- Wrapping a data key through the local provider and unwrapping it over the
resulting store round-trips, for a correct platform cipher. -/
theorem local_wrap_roundtrip (a : Aead) (ha : Aead.Correct a) (s : LocalCrypto)
    (rng : Rng) (pt : Bytes) (kid : String) (aad : Option Bytes)
    (res : EncryptionResult) (s2 : LocalCrypto) (rng2 : Rng)
    (henc : LocalCrypto.encrypt a s rng ⟨pt, some kid, some "AES-256-GCM", aad, none⟩ =
      (.ok res, s2, rng2)) :
    LocalCrypto.decrypt a s2
      ⟨res.ciphertext, res.iv, some res.authTag, some kid, some "AES-256-GCM",
        res.additionalData⟩ = (.ok pt, s2) := by
  rcases hk : lookupKey s.keys kid with _ | key
  · simp [LocalCrypto.encrypt, registeredEncryptionAlgorithms, hk, Rng.next] at henc
    obtain ⟨h1, h2, h3⟩ := henc
    subst h2
    subst h3
    have hk2 : lookupKey (s.keys ++ [(kid, rng.tape rng.idx)]) kid =
        some (rng.tape rng.idx) := lookupKey_append_self s.keys kid _ hk
    have had := ha (rng.tape rng.idx) (rng.tape (rng.idx + 1)) aad pt
    simp [LocalCrypto.decrypt, ← h1, registeredEncryptionAlgorithms, hk2, had]
  · simp [LocalCrypto.encrypt, registeredEncryptionAlgorithms, hk, Rng.next] at henc
    obtain ⟨h1, h2, h3⟩ := henc
    subst h2
    subst h3
    have had := ha key (rng.tape rng.idx) aad pt
    simp [LocalCrypto.decrypt, ← h1, registeredEncryptionAlgorithms, hk, had]

/-- C1: an envelope payload produced by encrypt decrypts back to the original
plaintext over the same underlying provider, and it still does after
rotateKeyVersion is interposed, because decrypt recovers the data key by
unwrapping the embedded wrappedDataKey through the provider and never
consults the cache or version tag. -/
theorem c1_envelope_roundtrip (a : Aead) (ha : Aead.Correct a)
    (inst : EnvelopeInstance) (rng : Rng) (now : Nat) (req : EncryptionRequest)
    (p : EnvelopePayload) (inst2 : EnvelopeInstance) (rng2 : Rng) (newVersion : String)
    (henc : EnvelopeInstance.encrypt a inst rng now req = (.ok p, inst2, rng2)) :
    EnvelopeInstance.decrypt a inst2 p = .ok req.plaintext ∧
    EnvelopeInstance.decrypt a (inst2.rotateKeyVersion newVersion) p = .ok req.plaintext := by
  have hrot : EnvelopeInstance.decrypt a (inst2.rotateKeyVersion newVersion) p =
      EnvelopeInstance.decrypt a inst2 p := rfl
  suffices hmain : EnvelopeInstance.decrypt a inst2 p = .ok req.plaintext by
    exact ⟨hmain, by rw [hrot, hmain]⟩
  simp only [EnvelopeInstance.encrypt] at henc
  rcases hdkv : EnvelopeInstance.dataKeyStep inst rng now
      (req.keyId.getD "envelope-master" ++ ":" ++ inst.keyVersion)
    with ⟨dk, cache2, rngA⟩
  rw [hdkv] at henc
  dsimp only at henc
  rcases hw : LocalCrypto.encrypt a inst.provider rngA
      ⟨dk, some (req.keyId.getD "envelope-master"), some "AES-256-GCM",
        req.additionalData, none⟩
    with ⟨o, ws, wr⟩
  rw [hw] at henc
  dsimp only at henc
  cases o with
  | error e => simp at henc
  | ok wrapped =>
      simp only [Prod.mk.injEq, Except.ok.injEq] at henc
      obtain ⟨h1, h2, h3⟩ := henc
      subst h1
      subst h2
      have hun := local_wrap_roundtrip a ha inst.provider rngA dk
        (req.keyId.getD "envelope-master") req.additionalData wrapped ws wr hw
      have had := ha dk ((wr.next).1) req.additionalData req.plaintext
      simp [EnvelopeInstance.decrypt, hun, had]

/-- Randomness tape for the C1 witness. -/
def c1Tape : Rng := ⟨fun i => [i + 40], 0⟩

/-- Fresh envelope instance over a local provider for the C1 witness. -/
def c1Inst : EnvelopeInstance :=
  ⟨LRUCache.emptyCache 100 300000, "v1", LocalCrypto.init "local-default" [7]⟩

/-- Concrete request with a key id and additional authenticated data. -/
def c1Req : EncryptionRequest := ⟨[1, 2, 3], some "mykey", none, some [9], none⟩

/-- The wrapped data key the witness run produces. -/
def c1Wrapped : EncryptionResult := ⟨[40], [42], [0], "mykey", "AES-256-GCM", some [9]⟩

/-- The envelope payload the witness run produces. -/
def c1Payload : EnvelopePayload :=
  ⟨[1, 2, 3], [43], [0], "mykey", "AES-256-GCM", some [9], c1Wrapped⟩

/-- The envelope instance state after the witness encrypt. -/
def c1Inst2 : EnvelopeInstance :=
  ⟨⟨100, 300000, [("mykey:v1", ⟨[40], 300005, 0, 5⟩)]⟩, "v1",
   ⟨"local-default", [("local-default", [7]), ("mykey", [41])]⟩⟩

/-- The randomness tape position after the witness encrypt. -/
def c1Rng2 : Rng := ⟨fun i => [i + 40], 4⟩

/-- C1 witness: the round trip evaluated on a concrete run, with and without
an interposed rotation. -/
theorem c1_envelope_roundtrip_witness :
    EnvelopeInstance.encrypt witnessAead c1Inst c1Tape 5 c1Req =
      (.ok c1Payload, c1Inst2, c1Rng2) ∧
    EnvelopeInstance.decrypt witnessAead c1Inst2 c1Payload = .ok c1Req.plaintext ∧
    EnvelopeInstance.decrypt witnessAead (c1Inst2.rotateKeyVersion "v2") c1Payload =
      .ok c1Req.plaintext := by
  have henc : EnvelopeInstance.encrypt witnessAead c1Inst c1Tape 5 c1Req =
      (.ok c1Payload, c1Inst2, c1Rng2) := rfl
  exact ⟨henc,
    (c1_envelope_roundtrip witnessAead witnessAead_correct c1Inst c1Tape 5 c1Req
      c1Payload c1Inst2 c1Rng2 "v2" henc).1,
    (c1_envelope_roundtrip witnessAead witnessAead_correct c1Inst c1Tape 5 c1Req
      c1Payload c1Inst2 c1Rng2 "v2" henc).2⟩
